import Mathlib

/-!
# Verification of the BioSim annual-cycle core

Shallow embedding of the BioSim population simulation (`animal.py`,
`cell.py`, `island.py`, `simulation.py`).  Python floats are modelled as
real numbers, the shared pseudo-random stream as explicit streams of
values threaded through every operation (one stream per kind of draw:
`random.random()`, `random.gauss(...)`, `random.choice(...)`), mutable
objects as values that each operation consumes and returns, and object
identity as a ghost field `oid` that no operation changes.

Definitions come first, theorems afterwards.
-/

namespace Biosim

noncomputable section

/-- The pseudo-random source.  Python draws all randomness from one
`random` module stream; the embedding keeps one stream for each of the
three primitives the core calls (`random.random()`, `random.gauss`,
`random.choice` on a 4-element list).  Each call pops the head of the
corresponding stream. -/
structure RNG where
  unif : ℕ → ℝ
  gauss : ℕ → ℝ
  choice : ℕ → Fin 4

/-- One `random.random()` draw. -/
def RNG.popUnif (g : RNG) : ℝ × RNG :=
  (g.unif 0, ⟨fun n => g.unif (n + 1), g.gauss, g.choice⟩)

/-- One `random.gauss(..)` draw (the drawn value itself is the stream head). -/
def RNG.popGauss (g : RNG) : ℝ × RNG :=
  (g.gauss 0, ⟨g.unif, fun n => g.gauss (n + 1), g.choice⟩)

/-- One `random.choice` draw from a 4-element list: an index in `Fin 4`. -/
def RNG.popChoice (g : RNG) : Fin 4 × RNG :=
  (g.choice 0, ⟨g.unif, g.gauss, fun n => g.choice (n + 1)⟩)

/-- The per-species coefficient record (`Herbivore.params` /
`Carnivore.params` class dictionaries).  `DeltaPhiMax` is present only
in the carnivore dictionary in the source; the herbivore default below
stores a dummy 0 that no herbivore operation reads. -/
structure AnimalParams where
  eta : ℝ
  beta : ℝ
  phi_age : ℝ
  phi_weight : ℝ
  a_half : ℝ
  w_half : ℝ
  mu : ℝ
  omega : ℝ
  zeta : ℝ
  w_birth : ℝ
  sigma_birth : ℝ
  gamma : ℝ
  xi : ℝ
  F : ℝ
  DeltaPhiMax : ℝ

/-- Default `Herbivore.params` dictionary of `animal.py`. -/
def herbParams : AnimalParams :=
  { eta := 0.05, beta := 0.9, phi_age := 0.6, phi_weight := 0.1,
    a_half := 40.0, w_half := 10.0, mu := 0.25, omega := 0.4, zeta := 3.5,
    w_birth := 8, sigma_birth := 1.5, gamma := 0.2, xi := 1.2, F := 10,
    DeltaPhiMax := 0 }

/-- Default `Carnivore.params` dictionary of `animal.py`. -/
def carnParams : AnimalParams :=
  { eta := 0.125, beta := 0.75, phi_age := 0.3, phi_weight := 0.4,
    a_half := 40.0, w_half := 4.0, mu := 0.4, omega := 0.8, zeta := 3.5,
    w_birth := 6.0, sigma_birth := 1.0, gamma := 0.8, xi := 1.1, F := 50,
    DeltaPhiMax := 10 }

/-- One animal (`Animal.__init__` state).  `oid` is a ghost field
modelling Python object identity; no operation changes it.  The source
constructor ends with `self.fitness = self.fitness_update()`, which
stores `None` (the method returns nothing); that stored value is never
read before the next `fitness_update` recomputation in any core flow,
and is modelled as 0. -/
structure Animal where
  oid : ℕ
  age : ℕ
  weight : ℝ
  fitness : ℝ
  has_moved : Bool
  amount_eaten : ℝ
  hungry : Bool

/-- `Animal.fitness_update`: fitness 0 for weight ≤ 0, otherwise the
product of the two sigmoid factors, exactly as in the source. -/
def fitness_update (p : AnimalParams) (a : Animal) : Animal :=
  if a.weight ≤ 0 then { a with fitness := 0 }
  else
    { a with fitness :=
        (1 / (1 + Real.exp (p.phi_age * ((a.age : ℝ) - p.a_half)))) *
        (1 / (1 + Real.exp (-p.phi_weight * (a.weight - p.w_half)))) }

/-- `Animal.age_update`. -/
def age_update (p : AnimalParams) (a : Animal) : Animal :=
  fitness_update p { a with age := a.age + 1 }

/-- `Animal.feed`. -/
def feed (p : AnimalParams) (food_to_eat : ℝ) (a : Animal) : Animal :=
  fitness_update p
    { a with weight := a.weight + food_to_eat * p.beta,
             amount_eaten := a.amount_eaten + food_to_eat }

/-- `Animal.annual_weight_loss`. -/
def annual_weight_loss (p : AnimalParams) (a : Animal) : Animal :=
  fitness_update p { a with weight := a.weight - p.eta * a.weight }

/-- `Animal.want_to_migrate`.  The source recomputes fitness, then
evaluates `p > random.random() and self.has_moved is False`: the uniform
draw is the left operand, so it is consumed before the flag is checked.
The method returns `True` or (implicitly) `None`, modelled as
`some true` / `none`. -/
def want_to_migrate (p : AnimalParams) (a : Animal) (g : RNG) :
    Animal × Option Bool × RNG :=
  let a1 := fitness_update p a
  let pr := p.mu * a1.fitness
  let u := g.popUnif.1
  let g1 := g.popUnif.2
  if pr > u ∧ a1.has_moved = false then (a1, some true, g1) else (a1, none, g1)

/-- `Animal.able_to_give_birth` (truthiness of the `True`/`None` return). -/
def able_to_give_birth (p : AnimalParams) (a : Animal) : Bool :=
  decide (a.weight > p.zeta * (p.w_birth + p.sigma_birth))

/-- `Animal.birth`.  Draws the newborn weight, then evaluates
`self.weight > weight_loss and p > random.random() and
self.able_to_give_birth()`; short-circuiting means the uniform draw is
consumed only when the first conjunct holds.  On success the parent
loses `xi * baby_weight`, refreshes fitness and a fresh newborn of age 0
is returned; on failure the parent is unchanged. -/
def birth (p : AnimalParams) (a : Animal) (N : ℕ) (g : RNG) :
    Animal × Option Animal × RNG :=
  let baby_weight := g.popGauss.1
  let g1 := g.popGauss.2
  let weight_loss := p.xi * baby_weight
  let pr := min 1 (p.gamma * a.fitness * ((N : ℝ) - 1))
  if a.weight > weight_loss then
    let u := g1.popUnif.1
    let g2 := g1.popUnif.2
    if pr > u ∧ able_to_give_birth p a = true then
      (fitness_update p { a with weight := a.weight - weight_loss },
       some { oid := 0, age := 0, weight := baby_weight, fitness := 0,
              has_moved := false, amount_eaten := 0, hungry := true }, g2)
    else (a, none, g2)
  else (a, none, g1)

/-- `Animal.animal_dies`.  `or` short-circuits: the uniform draw is
consumed only when the weight is positive. -/
def animal_dies (p : AnimalParams) (a : Animal) (g : RNG) : Bool × RNG :=
  if a.weight ≤ 0 then (true, g)
  else (decide (p.omega * (1 - a.fitness) > g.popUnif.1), g.popUnif.2)

/-- `Animal.reset_amount`. -/
def reset_amount (a : Animal) : Animal :=
  { a with has_moved := false, amount_eaten := 0, hungry := true }

/-- `Carnivore.kill_proba`: the piecewise probability followed by one
uniform draw. -/
def kill_proba (p : AnimalParams) (a herb : Animal) (g : RNG) : Bool × RNG :=
  let kp :=
    if a.fitness ≤ herb.fitness then (0 : ℝ)
    else if 0 < a.fitness - herb.fitness ∧
            a.fitness - herb.fitness < p.DeltaPhiMax then
      (a.fitness - herb.fitness) / p.DeltaPhiMax
    else 1
  (decide (kp > g.popUnif.1), g.popUnif.2)

/-- `Carnivore.kill`.  The source compares the cumulative intake with
the literal constant 50 (not the configured `F`): a capped meal feeds
`50 - amount_eaten` and clears `hungry`; an uncapped meal feeds the full
prey weight and leaves `hungry` as it is.  `kill_proba` (and hence one
uniform draw) is evaluated before `self.hungry` is checked. -/
def kill (p : AnimalParams) (a herbi : Animal) (g : RNG) :
    Animal × Bool × RNG :=
  let kb := (kill_proba p a herbi g).1
  let g1 := (kill_proba p a herbi g).2
  if kb = true ∧ a.hungry = true then
    if a.amount_eaten + herbi.weight > 50 then
      ({ feed p (50 - a.amount_eaten) a with hungry := false }, true, g1)
    else (feed p herbi.weight a, true, g1)
  else (a, false, g1)

/-- A sequence of `kill` calls by one carnivore within one cycle,
threading the carnivore state and the random source (the shape of the
predation loop in `Cell.carnivores_eat`). -/
def kill_seq (p : AnimalParams) (a : Animal) (preys : List Animal) (g : RNG) :
    Animal × RNG :=
  preys.foldl (fun acc prey =>
    ((kill p acc.1 prey acc.2).1, (kill p acc.1 prey acc.2).2.2)) (a, g)

/-- Keys of the species parameter dictionaries. -/
inductive PKey where
  | eta | beta | phi_age | phi_weight | a_half | w_half | mu | omega | zeta
  | w_birth | sigma_birth | gamma | xi | F | DeltaPhiMax
deriving DecidableEq

/-- Dictionary lookup on the association-list model of a Python dict. -/
def dlookup : List (PKey × ℝ) → PKey → Option ℝ
  | [], _ => none
  | (k, v) :: rest, key => if k = key then some v else dlookup rest key

/-- `cls.params.update(dicto)`: every key present in `dicto` takes the
supplied value, all other keys keep their prior value. -/
def dict_update (params : PKey → ℝ) (dicto : List (PKey × ℝ)) : PKey → ℝ :=
  fun k => (dlookup dicto k).getD (params k)

/-- Key order of the `Herbivore.params` dictionary literal. -/
def herb_param_order : List PKey :=
  [.eta, .beta, .phi_age, .phi_weight, .a_half, .w_half, .mu, .omega, .zeta,
   .w_birth, .sigma_birth, .gamma, .xi, .F]

/-- Key order of the `Carnivore.params` dictionary literal. -/
def carn_param_order : List PKey :=
  [.eta, .beta, .phi_age, .phi_weight, .a_half, .w_half, .mu, .omega, .zeta,
   .w_birth, .sigma_birth, .gamma, .xi, .DeltaPhiMax, .F]

/-- The `Herbivore.params` defaults as a key-indexed map (the herbivore
dictionary has no `DeltaPhiMax` entry; the map is total, the dummy value
at that key is never consulted because `herb_param_order` omits it). -/
def herb_defaults : PKey → ℝ
  | .eta => 0.05 | .beta => 0.9 | .phi_age => 0.6 | .phi_weight => 0.1
  | .a_half => 40.0 | .w_half => 10.0 | .mu => 0.25 | .omega => 0.4
  | .zeta => 3.5 | .w_birth => 8 | .sigma_birth => 1.5 | .gamma => 0.2
  | .xi => 1.2 | .F => 10 | .DeltaPhiMax => 0

/-- `Animal.set_params` loop body: `for key in cls.params: if key in
dicto: if dicto[key] < 0: raise ValueError; cls.params.update(dicto)`.
The returned flag records whether `ValueError` was raised; the returned
map is the parameter state at that moment (the source has already
executed `update` once for every earlier supplied non-negative key). -/
def set_params_go (dicto : List (PKey × ℝ)) :
    List PKey → (PKey → ℝ) → (PKey → ℝ) × Bool
  | [], params => (params, false)
  | k :: keys, params =>
    match dlookup dicto k with
    | none => set_params_go dicto keys params
    | some v =>
      if v < 0 then (params, true)
      else set_params_go dicto keys (dict_update params dicto)

/-- `Animal.set_params` for a class whose dictionary has key order
`order` and current contents `params`. -/
def set_params (order : List PKey) (params : PKey → ℝ)
    (dicto : List (PKey × ℝ)) : (PKey → ℝ) × Bool :=
  set_params_go dicto order params

/-- Argument dictionary of the landscape override (`{"f_max": ...}`). -/
structure LandDict where
  f_max : ℝ

/-- `Lowland.set_attr` (identical on all four landscape classes):
`setattr(cls, "f_max", dicto["f_max"])` — installs the supplied value
unconditionally, with no validation of any kind. -/
def set_attr (dicto : LandDict) : ℝ :=
  dicto.f_max

/-- The four terrain kinds. -/
inductive Land where
  | L | H | D | W
deriving DecidableEq

/-- The module-level `fmax_dicto` snapshot taken at import time from the
class defaults. -/
def fmax_dicto : Land → ℝ
  | .L => 800
  | .H => 300
  | .D => 0
  | .W => 0

/-- One grid cell (`Cell.__init__` state). -/
structure Cell where
  landtype : Land
  location : ℤ × ℤ
  fodder : ℝ
  habitable : Bool
  herbivore : List Animal
  carnivore : List Animal

/-- `Cell.__init__` for a given land-type letter and location. -/
def Cell.make (lt : Land) (loc : ℤ × ℤ) : Cell :=
  { landtype := lt, location := loc, fodder := fmax_dicto lt,
    habitable := decide (lt ≠ Land.W), herbivore := [], carnivore := [] }

/-- `Cell.update_fodder_year`: the source assigns the literal constants
800 (lowland) and 300 (highland) and has no branch at all for desert and
water, whose stock is left untouched. -/
def update_fodder_year (c : Cell) : Cell :=
  match c.landtype with
  | .L => { c with fodder := 800 }
  | .H => { c with fodder := 300 }
  | .D => c
  | .W => c

/-- `Cell.animals_to_migrate`: partition a species list into the
migrating subset (queried via `want_to_migrate`, marked
`has_moved = True` as a side effect) and the staying subset, both in
original order. -/
def animals_to_migrate (p : AnimalParams) (pop : List Animal) (g : RNG) :
    List Animal × List Animal × RNG :=
  match pop with
  | [] => ([], [], g)
  | x :: rest =>
    let w := want_to_migrate p x g
    let r := animals_to_migrate p rest w.2.2
    if w.2.1 = some true ∧ w.1.has_moved = false then
      ({ w.1 with has_moved := true } :: r.1, r.2.1, r.2.2)
    else
      (r.1, w.1 :: r.2.1, r.2.2)

/-- The `surr_cells` list of `Cell.get_target_destination`: the four
orthogonal neighbours, in source order. -/
def surr_cells (coord : ℤ × ℤ) : List (ℤ × ℤ) :=
  [(coord.1 - 1, coord.2), (coord.1 + 1, coord.2),
   (coord.1, coord.2 - 1), (coord.1, coord.2 + 1)]

/-- `Cell.get_target_destination`: `random.choice(surr_cells)`. -/
def get_target_destination (coord : ℤ × ℤ) (g : RNG) : (ℤ × ℤ) × RNG :=
  ((surr_cells coord).get ⟨(g.popChoice.1).val, by simp [surr_cells]⟩,
   g.popChoice.2)

/-- `b` is one of the four orthogonal neighbours of `a`. -/
def adjacent (a b : ℤ × ℤ) : Prop :=
  b ∈ surr_cells a

/-- `Cell.update_fitness` applied to a species list. -/
def update_fitness (p : AnimalParams) (pop : List Animal) : List Animal :=
  pop.map (fitness_update p)

/-- The comparison `Cell.herbivores_eat` sorts by: descending fitness
(Python `sort(key=fitness, reverse=True)` is stable). -/
def herb_desc (a b : Animal) : Bool :=
  decide (b.fitness ≤ a.fitness)

/-- The comparison `Cell.carnivores_eat` sorts prey by: ascending
fitness (stable). -/
def herb_asc (a b : Animal) : Bool :=
  decide (a.fitness ≤ b.fitness)

/-- The feeding loop of `Cell.herbivores_eat`: each animal in turn eats
`F` if at least `F` is in stock, otherwise whatever is left (possibly
zero), which empties the stock. -/
def feed_loop (p : AnimalParams) : List Animal → ℝ → List Animal × ℝ
  | [], fodder => ([], fodder)
  | herb :: rest, fodder =>
    if fodder ≥ p.F then
      let r := feed_loop p rest (fodder - p.F)
      (feed p p.F herb :: r.1, r.2)
    else
      let r := feed_loop p rest 0
      (feed p fodder herb :: r.1, r.2)

/-- `Cell.herbivores_eat`: refresh all fitness values, sort descending
(stable), feed in order from the shared stock. -/
def herbivores_eat (p : AnimalParams) (c : Cell) : Cell :=
  let sorted := (update_fitness p c.herbivore).mergeSort herb_desc
  { c with herbivore := (feed_loop p sorted c.fodder).1,
           fodder := (feed_loop p sorted c.fodder).2 }

/-- One carnivore's pass over the prey list in `Cell.carnivores_eat`:
`[herb for herb in herbivore if not carni.kill(herb)]`, threading the
carnivore's own mutated state and the random source. -/
def kill_filter (p : AnimalParams) (carni : Animal) :
    List Animal → RNG → Animal × List Animal × RNG
  | [], g => (carni, [], g)
  | herb :: rest, g =>
    let k := kill p carni herb g
    let r := kill_filter p k.1 rest k.2.2
    if k.2.1 = true then (r.1, r.2.1, r.2.2) else (r.1, herb :: r.2.1, r.2.2)

/-- The outer predator loop of `Cell.carnivores_eat`. -/
def carn_loop (p : AnimalParams) :
    List Animal → List Animal → RNG → List Animal × List Animal × RNG
  | [], herbs, g => ([], herbs, g)
  | carni :: rest, herbs, g =>
    let k := kill_filter p carni herbs g
    let r := carn_loop p rest k.2.1 k.2.2
    (k.1 :: r.1, r.2.1, r.2.2)

/-- `Cell.carnivores_eat`. -/
def carnivores_eat (pH pC : AnimalParams) (c : Cell) (g : RNG) : Cell × RNG :=
  let carns := update_fitness pC c.carnivore
  let herbs := (update_fitness pH c.herbivore).mergeSort herb_asc
  let r := carn_loop pC carns herbs g
  ({ c with carnivore := r.1, herbivore := r.2.1 }, r.2.2)

/-- The comprehension of `Cell.create_newborns` with population size
`N` fixed: each parent is offered one `birth(N)` call (mutating the
parent in place); successful newborns are collected in order. -/
def create_newborns_go (p : AnimalParams) (N : ℕ) :
    List Animal → RNG → List Animal × List Animal × RNG
  | [], g => ([], [], g)
  | a :: rest, g =>
    let b := birth p a N g
    let r := create_newborns_go p N rest b.2.2
    match b.2.1 with
    | some baby => (b.1 :: r.1, baby :: r.2.1, r.2.2)
    | none => (b.1 :: r.1, r.2.1, r.2.2)

/-- `Cell.create_newborns`: `N` is the population length at call time. -/
def create_newborns (p : AnimalParams) (pop : List Animal) (g : RNG) :
    List Animal × List Animal × RNG :=
  create_newborns_go p pop.length pop g

/-- `Cell.add_newborns`: refresh fitness of both species, then extend
each species list with its newborns. -/
def add_newborns (pH pC : AnimalParams) (c : Cell) (g : RNG) : Cell × RNG :=
  let herbs := update_fitness pH c.herbivore
  let carns := update_fitness pC c.carnivore
  let rh := create_newborns pH herbs g
  let rc := create_newborns pC carns rh.2.2
  ({ c with herbivore := rh.1 ++ rh.2.1, carnivore := rc.1 ++ rc.2.1 },
   rc.2.2)

/-- `Cell.updating_age_for_entire_population`. -/
def updating_age_for_entire_population (pH pC : AnimalParams) (c : Cell) :
    Cell :=
  { c with herbivore := c.herbivore.map (age_update pH),
           carnivore := c.carnivore.map (age_update pC) }

/-- `Cell.updating_weight_loss_for_entire_population`. -/
def updating_weight_loss_for_entire_population (pH pC : AnimalParams)
    (c : Cell) : Cell :=
  { c with herbivore := c.herbivore.map (annual_weight_loss pH),
           carnivore := c.carnivore.map (annual_weight_loss pC) }

/-- The survivor filter of `Cell.check_for_random_death` on one species
list. -/
def death_filter (p : AnimalParams) : List Animal → RNG → List Animal × RNG
  | [], g => ([], g)
  | a :: rest, g =>
    let d := animal_dies p a g
    let r := death_filter p rest d.2
    if d.1 = true then (r.1, r.2) else (a :: r.1, r.2)

/-- `Cell.check_for_random_death`: herbivores first, then carnivores. -/
def check_for_random_death (pH pC : AnimalParams) (c : Cell) (g : RNG) :
    Cell × RNG :=
  let rh := death_filter pH c.herbivore g
  let rc := death_filter pC c.carnivore rh.2
  ({ c with herbivore := rh.1, carnivore := rc.1 }, rc.2)

/-- `Cell.reset_attributes`. -/
def reset_attributes (c : Cell) : Cell :=
  { c with herbivore := c.herbivore.map reset_amount,
           carnivore := c.carnivore.map reset_amount }

/-- The island: the cell dictionary of `Island.make_map`, modelled as the
key list in dictionary insertion order plus a total coordinate-to-cell
map.  Coordinates outside `coords` are phantom entries the source
dictionary does not contain; the theorems below hypothesise them
impassable and empty, matching the validated-map precondition. -/
structure Island where
  coords : List (ℤ × ℤ)
  cells : (ℤ × ℤ) → Cell

/-- Point update of the coordinate-to-cell map. -/
def setCells (cells : (ℤ × ℤ) → Cell) (coord : ℤ × ℤ) (c : Cell) :
    (ℤ × ℤ) → Cell :=
  fun x => if x = coord then c else cells x

/-- Placement of one migrating animal (the body of the inner loop of
`Island.migration_herbivores` / `migration_carnivores`): pick a random
neighbour; append the animal there if that cell is habitable, otherwise
append it back to its own cell.  `get`/`set` project and replace the
species list being migrated. -/
def mig_place (get : Cell → List Animal) (set : Cell → List Animal → Cell)
    (coord : ℤ × ℤ) (acc : ((ℤ × ℤ) → Cell) × RNG) (animal : Animal) :
    ((ℤ × ℤ) → Cell) × RNG :=
  let cs := acc.1
  let target := (get_target_destination coord acc.2).1
  let g1 := (get_target_destination coord acc.2).2
  if (cs target).habitable = true then
    (setCells cs target (set (cs target) (get (cs target) ++ [animal])), g1)
  else
    (setCells cs coord (set (cs coord) (get (cs coord) ++ [animal])), g1)

/-- One iteration of the outer loop of the migration pass: partition the
cell's population, install the stayers, then place each migrant. -/
def mig_step (p : AnimalParams) (get : Cell → List Animal)
    (set : Cell → List Animal → Cell) (acc : ((ℤ × ℤ) → Cell) × RNG)
    (coord : ℤ × ℤ) : ((ℤ × ℤ) → Cell) × RNG :=
  let cs := acc.1
  let r := animals_to_migrate p (get (cs coord)) acc.2
  let cs1 := setCells cs coord (set (cs coord) r.2.1)
  r.1.foldl (mig_place get set coord) (cs1, r.2.2)

/-- The common body of `Island.migration_herbivores` and
`Island.migration_carnivores` (the two source methods are line-for-line
identical except for the species list they touch, supplied here as the
projection `get` and replacement `set`). -/
def migration_pass (p : AnimalParams) (get : Cell → List Animal)
    (set : Cell → List Animal → Cell) (island : Island) (g : RNG) :
    Island × RNG :=
  let r := island.coords.foldl (mig_step p get set) (island.cells, g)
  ({ island with cells := r.1 }, r.2)

/-- `Island.migration_herbivores`. -/
def migration_herbivores (p : AnimalParams) (island : Island) (g : RNG) :
    Island × RNG :=
  migration_pass p (fun c => c.herbivore)
    (fun c l => { c with herbivore := l }) island g

/-- `Island.migration_carnivores`. -/
def migration_carnivores (p : AnimalParams) (island : Island) (g : RNG) :
    Island × RNG :=
  migration_pass p (fun c => c.carnivore)
    (fun c l => { c with carnivore := l }) island g

/-- The per-cell body of `Island.yearly_cycle_phase_1`: reset fodder,
herbivore feeding, carnivore predation, reproduction — in that order. -/
def phase_1_cell (pH pC : AnimalParams) (c : Cell) (g : RNG) : Cell × RNG :=
  let c1 := update_fodder_year c
  let c2 := herbivores_eat pH c1
  let r := carnivores_eat pH pC c2 g
  add_newborns pH pC r.1 r.2

/-- `Island.yearly_cycle_phase_1` over all cells in dictionary order. -/
def yearly_cycle_phase_1 (pH pC : AnimalParams) (island : Island) (g : RNG) :
    Island × RNG :=
  let r := island.coords.foldl
    (fun acc coord =>
      (setCells acc.1 coord (phase_1_cell pH pC (acc.1 coord) acc.2).1,
       (phase_1_cell pH pC (acc.1 coord) acc.2).2))
    (island.cells, g)
  ({ island with cells := r.1 }, r.2)

/-- The per-cell body of `Island.yearly_cycle_phase_2`: aging, annual
weight loss, random-death filtering — in that order. -/
def phase_2_cell (pH pC : AnimalParams) (c : Cell) (g : RNG) : Cell × RNG :=
  let c1 := updating_age_for_entire_population pH pC c
  let c2 := updating_weight_loss_for_entire_population pH pC c1
  check_for_random_death pH pC c2 g

/-- `Island.yearly_cycle_phase_2` over all cells in dictionary order. -/
def yearly_cycle_phase_2 (pH pC : AnimalParams) (island : Island) (g : RNG) :
    Island × RNG :=
  let r := island.coords.foldl
    (fun acc coord =>
      (setCells acc.1 coord (phase_2_cell pH pC (acc.1 coord) acc.2).1,
       (phase_2_cell pH pC (acc.1 coord) acc.2).2))
    (island.cells, g)
  ({ island with cells := r.1 }, r.2)

/-- `Island.yearly_cycle_phase_3`: reset the per-year flags of every
animal of every cell. -/
def yearly_cycle_phase_3 (island : Island) : Island :=
  { island with
    cells := island.coords.foldl
      (fun cs coord => setCells cs coord (reset_attributes (cs coord)))
      island.cells }

/-- The annual-cycle body of `BioSim.simulate` (the excluded
visualization and logging steps aside): phase 1, herbivore migration,
carnivore migration, phase 2, phase 3 — in that order. -/
def advance_year (pH pC : AnimalParams) (island : Island) (g : RNG) :
    Island × RNG :=
  let r1 := yearly_cycle_phase_1 pH pC island g
  let r2 := migration_herbivores pH r1.1 r1.2
  let r3 := migration_carnivores pC r2.1 r2.2
  let r4 := yearly_cycle_phase_2 pH pC r3.1 r3.2
  (yearly_cycle_phase_3 r4.1, r4.2)

/-- Island-wide herbivore head count, summed over the dictionary keys. -/
def herb_count (island : Island) : ℕ :=
  (island.coords.map (fun c => (island.cells c).herbivore.length)).sum

/-- Island-wide carnivore head count, summed over the dictionary keys. -/
def carn_count (island : Island) : ℕ :=
  (island.coords.map (fun c => (island.cells c).carnivore.length)).sum

/-- Modelled from the spec: the ration sequence of one feeding pass —
each individual in turn consumes the lesser of the per-meal cap and the
remaining stock (used to compare `feed_loop` against the specified
behaviour). -/
def spec_feed_amounts (F : ℝ) : ℝ → ℕ → List ℝ
  | _, 0 => []
  | f, n + 1 => min F f :: spec_feed_amounts F (f - min F f) n

/-- Species-list total count over the dictionary keys, relative to a
projection (proof-support definition for the migration invariant). -/
def cnt (get : Cell → List Animal) (coords : List (ℤ × ℤ))
    (cells : (ℤ × ℤ) → Cell) : ℕ :=
  (coords.map (fun c => (get (cells c)).length)).sum

/-- Provenance of one animal during a migration pass: it carries the
`oid` of an animal of the initial state located in the same cell or an
orthogonally adjacent one; an animal found away from its origin has its
`has_moved` flag set and sits in a cell habitable in the initial state
(proof-support definition for the migration invariant). -/
def MigTrace (get : Cell → List Animal) (cells0 : (ℤ × ℤ) → Cell)
    (c : ℤ × ℤ) (a : Animal) : Prop :=
  ∃ c0 a0, a0 ∈ get (cells0 c0) ∧ a0.oid = a.oid ∧
    (a.has_moved = false → c = c0) ∧
    (c = c0 ∨ (adjacent c0 c ∧ (cells0 c).habitable = true))

/-- Invariant maintained cell-update by cell-update during a migration
pass (proof-support definition). -/
def MigInv (get : Cell → List Animal) (cells0 cur : (ℤ × ℤ) → Cell) : Prop :=
  (∀ c, (cur c).habitable = (cells0 c).habitable) ∧
  (∀ c, get (cur c) ≠ [] → (cells0 c).habitable = true) ∧
  (∀ c a, a ∈ get (cur c) → MigTrace get cells0 c a)

/-- Whether the supplied dictionary assigns a negative value to a key
(proof-support definition for the parameter-override analysis). -/
def neg_entry (dicto : List (PKey × ℝ)) (k : PKey) : Bool :=
  ((dlookup dicto k).map fun v => decide (v < 0)).getD false

/-- Concrete test animal: age 5, weight 100, stored fitness 1/2. -/
def test_parent : Animal :=
  { oid := 0, age := 5, weight := 100, fitness := 1 / 2, has_moved := false,
    amount_eaten := 0, hungry := true }

/-- Concrete random source whose uniform stream is constantly 0 and
whose Gaussian stream constantly returns 8. -/
def rng_zero_unif : RNG :=
  ⟨fun _ => 0, fun _ => 8, fun _ => 0⟩

/-- Concrete test carnivore: stored fitness 1, nothing eaten yet. -/
def test_killer : Animal :=
  { oid := 0, age := 5, weight := 20, fitness := 1, has_moved := false,
    amount_eaten := 0, hungry := true }

/-- Concrete test prey: weight 40, stored fitness 0. -/
def test_prey : Animal :=
  { oid := 1, age := 2, weight := 40, fitness := 0, has_moved := false,
    amount_eaten := 0, hungry := true }

/-- Concrete test cell: lowland with stock 9 and a single herbivore. -/
def test_cell : Cell :=
  { landtype := Land.L, location := (0, 0), fodder := 9, habitable := true,
    herbivore := [test_parent], carnivore := [] }

/-- Concrete test island: a single all-water phantom map. -/
def test_island : Island :=
  ⟨[], fun _ => Cell.make Land.W (0, 0)⟩

/-- Concrete 3-by-3 island: water border, one lowland centre cell
holding a single herbivore. -/
def witness_island : Island :=
  ⟨[(0, 0), (1, 0), (2, 0), (0, 1), (1, 1), (2, 1), (0, 2), (1, 2), (2, 2)],
   fun c =>
     if c = (1, 1) then
       { landtype := Land.L, location := (1, 1), fodder := 800,
         habitable := true, herbivore := [test_parent], carnivore := [] }
     else Cell.make Land.W (0, 0)⟩

end

/-! ## Basic facts about the per-animal operations -/

@[simp]
theorem fitness_update_oid (p : AnimalParams) (a : Animal) :
    (fitness_update p a).oid = a.oid := by
  unfold fitness_update; split <;> rfl

@[simp]
theorem fitness_update_age (p : AnimalParams) (a : Animal) :
    (fitness_update p a).age = a.age := by
  unfold fitness_update; split <;> rfl

@[simp]
theorem fitness_update_weight (p : AnimalParams) (a : Animal) :
    (fitness_update p a).weight = a.weight := by
  unfold fitness_update; split <;> rfl

@[simp]
theorem fitness_update_has_moved (p : AnimalParams) (a : Animal) :
    (fitness_update p a).has_moved = a.has_moved := by
  unfold fitness_update; split <;> rfl

@[simp]
theorem fitness_update_amount_eaten (p : AnimalParams) (a : Animal) :
    (fitness_update p a).amount_eaten = a.amount_eaten := by
  unfold fitness_update; split <;> rfl

@[simp]
theorem fitness_update_hungry (p : AnimalParams) (a : Animal) :
    (fitness_update p a).hungry = a.hungry := by
  unfold fitness_update; split <;> rfl

/-- C7: `fitness_update` yields exactly 0 for non-positive weight, the
product of the rising and falling sigmoid factors otherwise, and the
result always lies in `[0, 1]`. -/
theorem fitness_update_spec (p : AnimalParams) (a : Animal) :
    (a.weight ≤ 0 → (fitness_update p a).fitness = 0) ∧
    (0 < a.weight → (fitness_update p a).fitness =
      (1 / (1 + Real.exp (p.phi_age * ((a.age : ℝ) - p.a_half)))) *
      (1 / (1 + Real.exp (-p.phi_weight * (a.weight - p.w_half))))) ∧
    0 ≤ (fitness_update p a).fitness ∧ (fitness_update p a).fitness ≤ 1 := by
  unfold fitness_update
  by_cases h : a.weight ≤ 0
  · simp [h]
  · have hx := Real.exp_pos (p.phi_age * ((a.age : ℝ) - p.a_half))
    have hy := Real.exp_pos (-p.phi_weight * (a.weight - p.w_half))
    have h1 : (0 : ℝ) ≤ 1 / (1 + Real.exp (p.phi_age * ((a.age : ℝ) - p.a_half))) := by
      positivity
    have h2 : (0 : ℝ) ≤ 1 / (1 + Real.exp (-p.phi_weight * (a.weight - p.w_half))) := by
      positivity
    have h3 : 1 / (1 + Real.exp (p.phi_age * ((a.age : ℝ) - p.a_half))) ≤ 1 := by
      rw [div_le_one (by linarith)]; linarith
    have h4 : 1 / (1 + Real.exp (-p.phi_weight * (a.weight - p.w_half))) ≤ 1 := by
      rw [div_le_one (by linarith)]; linarith
    simp only [if_neg h]
    exact ⟨fun h2 => absurd h2 h, fun _ => trivial, mul_nonneg h1 h2,
      mul_le_one₀ h3 h2 h4⟩

theorem fitness_update_spec_witness :
    ((-1 : ℝ) ≤ 0) ∧
    (fitness_update herbParams
      { oid := 0, age := 3, weight := -1, fitness := 1, has_moved := false,
        amount_eaten := 0, hungry := true }).fitness = 0 :=
  ⟨by norm_num,
   (fitness_update_spec herbParams
      { oid := 0, age := 3, weight := -1, fitness := 1, has_moved := false,
        amount_eaten := 0, hungry := true }).1 (by norm_num)⟩

/-- C9: one `annual_weight_loss` call multiplies the weight by
`1 - eta`, and `n` successive calls compound to `(1 - eta) ^ n`. -/
theorem annual_weight_loss_compounds (p : AnimalParams) (a : Animal) (n : ℕ) :
    ((annual_weight_loss p a).weight = a.weight * (1 - p.eta)) ∧
    (((annual_weight_loss p)^[n] a).weight = a.weight * (1 - p.eta) ^ n) := by
  have h1 : ∀ b : Animal,
      (annual_weight_loss p b).weight = b.weight * (1 - p.eta) := by
    intro b
    simp only [annual_weight_loss, fitness_update_weight]
    ring
  refine ⟨h1 a, ?_⟩
  induction n with
  | zero => simp
  | succ n ih => rw [Function.iterate_succ_apply', h1, ih]; ring

/-- `want_to_migrate` in if-normal form. -/
theorem want_to_migrate_eq (p : AnimalParams) (a : Animal) (g : RNG) :
    want_to_migrate p a g =
      if p.mu * (fitness_update p a).fitness > g.unif 0 ∧ a.has_moved = false
      then (fitness_update p a, some true, g.popUnif.2)
      else (fitness_update p a, none, g.popUnif.2) := by
  simp only [want_to_migrate, RNG.popUnif, fitness_update_has_moved]

/-- C10: `want_to_migrate` consumes exactly one uniform draw whether or
not the flag is set (the draw is evaluated before the flag is checked),
never returns an explicit `False` (its negative result is the implicit
`None`), mutates nothing except the fitness recomputation, and returns
`True` exactly when the propensity criterion holds and the animal has
not yet moved. -/
theorem want_to_migrate_spec (p : AnimalParams) (a : Animal) (g : RNG) :
    (want_to_migrate p a g).2.2 = g.popUnif.2 ∧
    (want_to_migrate p { a with has_moved := true } g).2.2 =
      (want_to_migrate p { a with has_moved := false } g).2.2 ∧
    (want_to_migrate p a g).1 = fitness_update p a ∧
    (want_to_migrate p a g).2.1 ≠ some false ∧
    ((want_to_migrate p a g).2.1 = some true ↔
      (p.mu * (fitness_update p a).fitness > g.unif 0 ∧
        a.has_moved = false)) := by
  refine ⟨?_, ?_, ?_, ?_, ?_⟩
  · rw [want_to_migrate_eq]; split_ifs <;> rfl
  · rw [want_to_migrate_eq, want_to_migrate_eq]; split_ifs <;> rfl
  · rw [want_to_migrate_eq]; split_ifs <;> rfl
  · rw [want_to_migrate_eq]; split_ifs <;> simp
  · rw [want_to_migrate_eq]
    split_ifs with h
    · simp [h]
    · simp [h]

theorem want_to_migrate_spec_witness :
    (want_to_migrate herbParams
      { oid := 0, age := 2, weight := 10, fitness := 0, has_moved := true,
        amount_eaten := 0, hungry := true }
      ⟨fun _ => 0, fun _ => 0, fun _ => 0⟩).1 =
    fitness_update herbParams
      { oid := 0, age := 2, weight := 10, fitness := 0, has_moved := true,
        amount_eaten := 0, hungry := true } :=
  (want_to_migrate_spec herbParams
    { oid := 0, age := 2, weight := 10, fitness := 0, has_moved := true,
      amount_eaten := 0, hungry := true }
    ⟨fun _ => 0, fun _ => 0, fun _ => 0⟩).2.2.1

/-- C5 (corrected): `update_fodder_year` installs the hardcoded default
capacities 800 (lowland) and 300 (highland) — not the currently
configured `f_max`, which `set_attr` changes but this method never
reads — and leaves the stock of desert and water cells unchanged rather
than resetting it to zero. -/
theorem update_fodder_year_behaviour (c : Cell) :
    (c.landtype = Land.L → update_fodder_year c = { c with fodder := 800 }) ∧
    (c.landtype = Land.H → update_fodder_year c = { c with fodder := 300 }) ∧
    (c.landtype = Land.D ∨ c.landtype = Land.W → update_fodder_year c = c) := by
  rcases c with ⟨lt, loc, f, hab, hb, cb⟩
  cases lt <;> simp [update_fodder_year]

theorem update_fodder_year_behaviour_witness :
    update_fodder_year (Cell.make Land.L (0, 0)) =
      { Cell.make Land.L (0, 0) with fodder := 800 } :=
  (update_fodder_year_behaviour (Cell.make Land.L (0, 0))).1 rfl

/-- C5 counterexample: a desert cell with prior stock 5 keeps stock 5
after `update_fodder_year`, although the claim requires a reset to zero
for non-regenerating terrain. -/
theorem update_fodder_year_desert_not_reset :
    (update_fodder_year
      { landtype := Land.D, location := (0, 0), fodder := 5,
        habitable := true, herbivore := [], carnivore := [] }).fodder = 5 ∧
    (5 : ℝ) ≠ 0 := by
  constructor
  · rfl
  · norm_num

/-! ## Parameter overrides (claim C3) -/

theorem dict_update_idem (params : PKey → ℝ) (dicto : List (PKey × ℝ)) :
    dict_update (dict_update params dicto) dicto = dict_update params dicto := by
  funext k
  unfold dict_update
  cases h : dlookup dicto k <;> simp [h]

theorem set_params_go_flag (dicto : List (PKey × ℝ)) (keys : List PKey) :
    ∀ params, (set_params_go dicto keys params).2 = keys.any (neg_entry dicto) := by
  induction keys with
  | nil => intro params; rfl
  | cons k ks ih =>
    intro params
    unfold set_params_go
    cases h : dlookup dicto k with
    | none => simp [h, ih, neg_entry]
    | some v =>
      by_cases hv : v < 0
      · simp [h, hv, neg_entry]
      · simp [h, hv, ih, neg_entry]

theorem set_params_go_result (dicto : List (PKey × ℝ)) (keys : List PKey) :
    ∀ params, (set_params_go dicto keys params).1 = params ∨
      (set_params_go dicto keys params).1 = dict_update params dicto := by
  induction keys with
  | nil => intro params; exact Or.inl rfl
  | cons k ks ih =>
    intro params
    unfold set_params_go
    cases h : dlookup dicto k with
    | none => simp only; exact ih params
    | some v =>
      by_cases hv : v < 0
      · simp only
        rw [if_pos hv]
        exact Or.inl rfl
      · simp only
        rw [if_neg hv]
        rcases ih (dict_update params dicto) with h1 | h1
        · exact Or.inr h1
        · exact Or.inr (h1.trans (dict_update_idem params dicto))

theorem set_params_go_success (dicto : List (PKey × ℝ)) (keys : List PKey) :
    ∀ params, (∀ k ∈ keys, ∀ v, dlookup dicto k = some v → 0 ≤ v) →
      (set_params_go dicto keys params).1 =
        (if keys.any (fun k => (dlookup dicto k).isSome) = true
         then dict_update params dicto else params) := by
  induction keys with
  | nil => intro params _; rfl
  | cons k ks ih =>
    intro params hpos
    unfold set_params_go
    cases h : dlookup dicto k with
    | none =>
      simp only [h, List.any_cons, Option.isSome_none, Bool.false_or]
      exact ih params fun k2 hk2 => hpos k2 (List.mem_cons_of_mem k hk2)
    | some v =>
      have hv : ¬v < 0 := not_lt.mpr (hpos k (List.mem_cons_self k ks) v h)
      simp only [hv, if_false, h, List.any_cons, Option.isSome_some,
        Bool.true_or, if_true]
      rw [ih (dict_update params dicto)
        fun k2 hk2 => hpos k2 (List.mem_cons_of_mem k hk2)]
      split_ifs with hany
      · exact dict_update_idem params dicto
      · rfl

/-- C3 (corrected): a species-policy override raises exactly when the
supplied dictionary assigns a negative value to a recognized key, but
prior values are not guaranteed on failure: the resulting parameter
state is either the untouched one or the whole supplied mapping applied
(the source runs `cls.params.update(dicto)` once per earlier supplied
non-negative key before reaching the negative one).  When every
supplied recognized value is non-negative the call succeeds and applies
the whole mapping.  A landscape-policy override (`set_attr`) performs
no validation at all: it installs the supplied `f_max` unconditionally,
negative values included. -/
theorem set_params_behaviour (order : List PKey) (params : PKey → ℝ)
    (dicto : List (PKey × ℝ)) :
    ((set_params order params dicto).2 = true ↔
      ∃ k ∈ order, ∃ v, dlookup dicto k = some v ∧ v < 0) ∧
    ((set_params order params dicto).1 = params ∨
      (set_params order params dicto).1 = dict_update params dicto) ∧
    ((∀ k ∈ order, ∀ v, dlookup dicto k = some v → 0 ≤ v) →
      (set_params order params dicto).2 = false ∧
      (set_params order params dicto).1 =
        (if order.any (fun k => (dlookup dicto k).isSome) = true
         then dict_update params dicto else params)) ∧
    (∀ d : LandDict, set_attr d = d.f_max) := by
  refine ⟨?_, set_params_go_result dicto order params, fun hpos => ⟨?_, ?_⟩,
    fun d => rfl⟩
  · rw [set_params, set_params_go_flag, List.any_eq_true]
    constructor
    · rintro ⟨k, hk, hneg⟩
      refine ⟨k, hk, ?_⟩
      unfold neg_entry at hneg
      cases h : dlookup dicto k with
      | none => rw [h] at hneg; simp at hneg
      | some v =>
        rw [h] at hneg
        simp at hneg
        exact ⟨v, rfl, hneg⟩
    · rintro ⟨k, hk, v, hv, hneg⟩
      exact ⟨k, hk, by simp [neg_entry, hv, hneg]⟩
  · rw [set_params, set_params_go_flag, List.any_eq_false]
    intro k hk
    unfold neg_entry
    cases h : dlookup dicto k with
    | none => simp
    | some v =>
      have := hpos k hk v h
      simp [not_lt.mpr this]
  · exact set_params_go_success dicto order params hpos

theorem set_params_behaviour_witness :
    (∀ k ∈ ([PKey.eta] : List PKey), ∀ v : ℝ,
      dlookup [(PKey.eta, (2 : ℝ))] k = some v → 0 ≤ v) ∧
    (set_params [PKey.eta] herb_defaults [(PKey.eta, (2 : ℝ))]).2 = false := by
  have hpos : ∀ k ∈ ([PKey.eta] : List PKey), ∀ v : ℝ,
      dlookup [(PKey.eta, (2 : ℝ))] k = some v → 0 ≤ v := by
    intro k hk v hv
    simp only [List.mem_singleton] at hk
    subst hk
    simp [dlookup] at hv
    subst hv
    norm_num
  exact ⟨hpos, ((set_params_behaviour [PKey.eta] herb_defaults
    [(PKey.eta, (2 : ℝ))]).2.2.1 hpos).1⟩

/-- C3 counterexample: overriding the herbivore policy with
`{eta: 1, beta: -1}` raises the validation error, yet the `beta`
coefficient has already been changed from its prior value 0.9 to the
negative supplied value. -/
theorem set_params_mutates_on_failure :
    (set_params herb_param_order herb_defaults
      [(PKey.eta, (1 : ℝ)), (PKey.beta, (-1 : ℝ))]).2 = true ∧
    (set_params herb_param_order herb_defaults
      [(PKey.eta, (1 : ℝ)), (PKey.beta, (-1 : ℝ))]).1 PKey.beta = -1 ∧
    herb_defaults PKey.beta = 9 / 10 := by
  have d1 : dlookup [(PKey.eta, (1 : ℝ)), (PKey.beta, (-1 : ℝ))] PKey.eta =
      some 1 := by simp [dlookup]
  have d2 : dlookup [(PKey.eta, (1 : ℝ)), (PKey.beta, (-1 : ℝ))] PKey.beta =
      some (-1) := by simp [dlookup]
  have key : set_params herb_param_order herb_defaults
      [(PKey.eta, (1 : ℝ)), (PKey.beta, (-1 : ℝ))] =
      (dict_update herb_defaults [(PKey.eta, (1 : ℝ)), (PKey.beta, (-1 : ℝ))],
       true) := by
    rw [set_params, herb_param_order]
    rw [set_params_go, d1]
    simp only
    rw [if_neg (by norm_num : ¬(1 : ℝ) < 0)]
    rw [set_params_go, d2]
    simp only
    rw [if_pos (by norm_num : (-1 : ℝ) < 0)]
  refine ⟨by rw [key], ?_, by norm_num [herb_defaults]⟩
  rw [key]
  simp [dict_update, d2]

/-! ## Birth under forced random streams (claim C8) -/

/-- `birth` in if-normal form. -/
theorem birth_eq (p : AnimalParams) (a : Animal) (N : ℕ) (g : RNG) :
    birth p a N g =
      (if a.weight > p.xi * g.gauss 0 then
        if min 1 (p.gamma * a.fitness * ((N : ℝ) - 1)) > g.unif 0 ∧
            able_to_give_birth p a = true then
          (fitness_update p { a with weight := a.weight - p.xi * g.gauss 0 },
           some { oid := 0, age := 0, weight := g.gauss 0, fitness := 0,
                  has_moved := false, amount_eaten := 0, hungry := true },
           ⟨fun n => g.unif (n + 1), fun n => g.gauss (n + 1), g.choice⟩)
        else
          (a, none,
           ⟨fun n => g.unif (n + 1), fun n => g.gauss (n + 1), g.choice⟩)
      else (a, none, ⟨g.unif, fun n => g.gauss (n + 1), g.choice⟩)) := by
  simp only [birth, RNG.popGauss, RNG.popUnif]

/-- C8 (corrected): with a forced zero-valued uniform stream, `birth`
succeeds exactly when the parent's weight exceeds the transfer cost,
the success probability `min(1, gamma * fitness * (N - 1))` is strictly
positive, and the eligibility gate holds — so it still fails when
`N = 1` or the stored fitness is 0; with a forced one-valued uniform
stream `birth` never succeeds; on any failure the parent is returned
unchanged. -/
theorem birth_forced_streams (p : AnimalParams) (a : Animal) (N : ℕ)
    (g : RNG) :
    ((birth p a N { g with unif := fun _ => 0 }).2.1.isSome = true ↔
      (a.weight > p.xi * g.gauss 0 ∧
       min 1 (p.gamma * a.fitness * ((N : ℝ) - 1)) > 0 ∧
       able_to_give_birth p a = true)) ∧
    ((birth p a N { g with unif := fun _ => 1 }).2.1 = none) ∧
    ((birth p a N g).2.1 = none → (birth p a N g).1 = a) := by
  refine ⟨?_, ?_, ?_⟩
  · rw [birth_eq]
    split_ifs with h1 h2
    · simp only [Option.isSome_some, true_iff]
      exact ⟨h1, h2.1, h2.2⟩
    · simp only [Option.isSome_none, Bool.false_eq_true, false_iff]
      rintro ⟨-, hb, hc⟩
      exact h2 ⟨hb, hc⟩
    · simp only [Option.isSome_none, Bool.false_eq_true, false_iff]
      rintro ⟨ha, -, -⟩
      exact h1 ha
  · rw [birth_eq]
    have hle : min 1 (p.gamma * a.fitness * ((N : ℝ) - 1)) ≤ 1 :=
      min_le_left 1 _
    split_ifs with h1 h2
    · exact absurd h2.1 (not_lt.mpr hle)
    · rfl
    · rfl
  · rw [birth_eq]
    split_ifs with h1 h2
    · intro h; simp at h
    · intro _; rfl
    · intro _; rfl

theorem birth_forced_streams_witness :
    (birth herbParams test_parent 2 rng_zero_unif).2.1.isSome = true :=
  (birth_forced_streams herbParams test_parent 2 rng_zero_unif).1.mpr
    (by refine ⟨?_, ?_, ?_⟩ <;>
      norm_num [test_parent, rng_zero_unif, herbParams, able_to_give_birth])

/-- C8 counterexample: with the forced zero-valued uniform stream, a
parent of weight 100 whose weight exceeds the transfer cost and whose
eligibility gate holds still fails to give birth when `N = 1`, because
the success probability `min(1, gamma * fitness * (N - 1))` is 0 and
the draw comparison `0 > 0` is false. -/
theorem birth_zero_stream_fails_N_one :
    test_parent.weight > herbParams.xi * rng_zero_unif.gauss 0 ∧
    able_to_give_birth herbParams test_parent = true ∧
    (birth herbParams test_parent 1 rng_zero_unif).2.1 = none := by
  refine ⟨?_, ?_, ?_⟩
  · norm_num [test_parent, rng_zero_unif, herbParams]
  · norm_num [test_parent, herbParams, able_to_give_birth]
  · rw [birth_eq]
    norm_num [test_parent, rng_zero_unif, herbParams]

/-! ## Predation and the per-cycle meal cap (claim C4) -/

@[simp]
theorem feed_amount_eaten (p : AnimalParams) (x : ℝ) (a : Animal) :
    (feed p x a).amount_eaten = a.amount_eaten + x := by
  simp [feed]

@[simp]
theorem feed_weight (p : AnimalParams) (x : ℝ) (a : Animal) :
    (feed p x a).weight = a.weight + x * p.beta := by
  simp [feed]

@[simp]
theorem feed_hungry (p : AnimalParams) (x : ℝ) (a : Animal) :
    (feed p x a).hungry = a.hungry := by
  simp [feed]

/-- `kill` in if-normal form. -/
theorem kill_eq (p : AnimalParams) (a herbi : Animal) (g : RNG) :
    kill p a herbi g =
      (if (kill_proba p a herbi g).1 = true ∧ a.hungry = true then
        if a.amount_eaten + herbi.weight > 50 then
          ({ feed p (50 - a.amount_eaten) a with hungry := false }, true,
           (kill_proba p a herbi g).2)
        else (feed p herbi.weight a, true, (kill_proba p a herbi g).2)
      else (a, false, (kill_proba p a herbi g).2)) := by
  simp only [kill]

theorem kill_amount_le (p : AnimalParams) (a herbi : Animal) (g : RNG)
    (h : a.amount_eaten ≤ 50) : (kill p a herbi g).1.amount_eaten ≤ 50 := by
  rw [kill_eq]
  split_ifs with h1 h2
  · simp
  · simp
    linarith
  · exact h

theorem kill_seq_le (p : AnimalParams) (preys : List Animal) :
    ∀ a g, a.amount_eaten ≤ 50 → (kill_seq p a preys g).1.amount_eaten ≤ 50 := by
  induction preys with
  | nil => intro a g h; exact h
  | cons prey rest ih =>
    intro a g h
    rw [kill_seq, List.foldl_cons]
    exact ih (kill p a prey g).1 (kill p a prey g).2.2
      (kill_amount_le p a prey g h)

/-- C4 (corrected): within one cycle a carnivore's cumulative intake
never exceeds the hardcoded cap 50 (the literal the source compares
with, not the configured `F`), across any sequence of `kill` calls; a
successful kill feeds the lesser of the prey's full weight and the
remaining room under 50; the predator is marked non-hungry only when a
kill is actually truncated by the cap (cumulative intake plus prey
weight strictly above 50) — reaching exactly 50 leaves it hungry — and
once non-hungry every further `kill` call fails and leaves the predator
unchanged. -/
theorem kill_cap_behaviour (p : AnimalParams) (a herbi : Animal) (g : RNG) :
    (a.hungry = false →
      kill p a herbi g = (a, false, (kill_proba p a herbi g).2)) ∧
    ((kill p a herbi g).2.1 = true →
      (kill p a herbi g).1.amount_eaten =
        a.amount_eaten + min herbi.weight (50 - a.amount_eaten) ∧
      (kill p a herbi g).1.weight =
        a.weight + min herbi.weight (50 - a.amount_eaten) * p.beta) ∧
    ((kill p a herbi g).1.hungry = false ↔
      (a.hungry = false ∨
        ((kill p a herbi g).2.1 = true ∧ a.amount_eaten + herbi.weight > 50))) ∧
    (a.amount_eaten ≤ 50 → (kill p a herbi g).1.amount_eaten ≤ 50) ∧
    (∀ preys : List Animal, a.amount_eaten ≤ 50 →
      (kill_seq p a preys g).1.amount_eaten ≤ 50) := by
  refine ⟨?_, ?_, ?_, kill_amount_le p a herbi g,
    fun preys => kill_seq_le p preys a g⟩
  · intro h
    rw [kill_eq, if_neg]
    simp [h]
  · rw [kill_eq]
    split_ifs with h1 h2
    · intro _
      have hmin : min herbi.weight (50 - a.amount_eaten) =
          50 - a.amount_eaten := min_eq_right (by linarith)
      constructor
      · simp [hmin]
      · simp [hmin]
    · intro _
      have hmin : min herbi.weight (50 - a.amount_eaten) = herbi.weight :=
        min_eq_left (by linarith)
      constructor
      · simp [hmin]
      · simp [hmin]
    · intro h
      simp at h
  · rw [kill_eq]
    split_ifs with h1 h2
    · simp [h2]
    · simp [h1.2, h2]
    · simp

theorem kill_cap_behaviour_witness :
    test_prey.amount_eaten ≤ 50 ∧
    (kill_seq carnParams test_prey [test_killer] rng_zero_unif).1.amount_eaten
      ≤ 50 :=
  ⟨by norm_num [test_prey],
   (kill_cap_behaviour carnParams test_prey test_killer rng_zero_unif).2.2.2.2
     [test_killer] (by norm_num [test_prey])⟩

/-- C4 counterexample: with the per-meal cap overridden to `F = 30`, a
single successful kill of a prey of weight 40 drives the cumulative
intake to 40, strictly above the configured cap `F` — the source
compares against the literal 50, not against `F`. -/
theorem kill_exceeds_configured_F :
    (kill { carnParams with F := 30 } test_killer test_prey
      rng_zero_unif).1.amount_eaten = 40 ∧
    ({ carnParams with F := 30 } : AnimalParams).F < 40 := by
  have hkp : (kill_proba { carnParams with F := 30 } test_killer test_prey
      rng_zero_unif).1 = true := by
    simp only [kill_proba, RNG.popUnif, test_killer, test_prey, rng_zero_unif,
      carnParams, decide_eq_true_eq]
    rw [if_neg (by norm_num), if_pos (by norm_num)]
    norm_num
  constructor
  · rw [kill_eq, if_pos ⟨hkp, rfl⟩,
      if_neg (by norm_num [test_killer, test_prey])]
    simp [test_killer, test_prey]
  · norm_num [carnParams]

/-! ## Herbivore feeding (claim C6) -/

theorem herb_desc_trans (a b c : Animal) (hab : herb_desc a b = true)
    (hbc : herb_desc b c = true) : herb_desc a c = true := by
  simp only [herb_desc, decide_eq_true_eq] at hab hbc ⊢
  exact le_trans hbc hab

theorem herb_desc_total (a b : Animal) :
    (herb_desc a b || herb_desc b a) = true := by
  simp only [herb_desc, Bool.or_eq_true, decide_eq_true_eq]
  exact le_total b.fitness a.fitness

theorem spec_feed_amounts_length (F f : ℝ) (n : ℕ) :
    (spec_feed_amounts F f n).length = n := by
  induction n generalizing f with
  | zero => rfl
  | succ n ih => simp [spec_feed_amounts, ih]

theorem spec_feed_amounts_le (F : ℝ) (n : ℕ) :
    ∀ f : ℝ, 0 ≤ f → (spec_feed_amounts F f n).sum ≤ f := by
  induction n with
  | zero => intro f hf; simp [spec_feed_amounts, hf]
  | succ n ih =>
    intro f hf
    have hmin : min F f ≤ f := min_le_right F f
    have := ih (f - min F f) (by linarith)
    simp only [spec_feed_amounts, List.sum_cons]
    linarith

theorem feed_loop_eq_spec (p : AnimalParams) (l : List Animal) :
    ∀ f : ℝ, feed_loop p l f =
      (List.zipWith (feed p) (spec_feed_amounts p.F f l.length) l,
       f - (spec_feed_amounts p.F f l.length).sum) := by
  induction l with
  | nil => intro f; simp [feed_loop, spec_feed_amounts]
  | cons herb rest ih =>
    intro f
    rw [feed_loop]
    split_ifs with hF
    · have hmin : min p.F f = p.F := min_eq_left hF
      simp only [List.length_cons, spec_feed_amounts, hmin, List.zipWith_cons_cons,
        List.sum_cons, ih (f - p.F), Prod.mk.injEq]
      exact ⟨trivial, by ring⟩
    · have hmin : min p.F f = f := min_eq_right (le_of_lt (not_le.mp hF))
      simp only [List.length_cons, spec_feed_amounts, hmin, List.zipWith_cons_cons,
        List.sum_cons, ih 0, sub_self, Prod.mk.injEq]
      exact ⟨trivial, by ring⟩

/-- C6: `herbivores_eat` feeds exactly the fitness-refreshed population,
reordered by the stable descending-fitness sort (ties keep insertion
order, expressed by: any equal-fitness subsequence of the input is still
a subsequence of the sorted list); the i-th animal in that order is fed
`min(F, remaining stock)` (the ration list `spec_feed_amounts`); nobody
is skipped; and with non-negative initial stock the total consumed never
exceeds the stock and the final stock is non-negative. -/
theorem herbivores_eat_spec (p : AnimalParams) (c : Cell) :
    ((herbivores_eat p c).herbivore =
      List.zipWith (feed p)
        (spec_feed_amounts p.F c.fodder
          ((update_fitness p c.herbivore).mergeSort herb_desc).length)
        ((update_fitness p c.herbivore).mergeSort herb_desc)) ∧
    ((herbivores_eat p c).herbivore.length = c.herbivore.length) ∧
    (List.Pairwise (fun a b : Animal => b.fitness ≤ a.fitness)
      ((update_fitness p c.herbivore).mergeSort herb_desc)) ∧
    (((update_fitness p c.herbivore).mergeSort herb_desc).Perm
      (update_fitness p c.herbivore)) ∧
    (∀ l' : List Animal, l'.Sublist (update_fitness p c.herbivore) →
      (l'.Pairwise fun a b : Animal => a.fitness = b.fitness) →
      l'.Sublist ((update_fitness p c.herbivore).mergeSort herb_desc)) ∧
    ((herbivores_eat p c).fodder =
      c.fodder - (spec_feed_amounts p.F c.fodder
        ((update_fitness p c.herbivore).mergeSort herb_desc).length).sum) ∧
    (0 ≤ c.fodder → 0 ≤ (herbivores_eat p c).fodder ∧
      (spec_feed_amounts p.F c.fodder
        ((update_fitness p c.herbivore).mergeSort herb_desc).length).sum
        ≤ c.fodder) := by
  have hlen : ((update_fitness p c.herbivore).mergeSort herb_desc).length =
      c.herbivore.length := by
    rw [(List.mergeSort_perm (update_fitness p c.herbivore) herb_desc).length_eq]
    simp [update_fitness]
  have hfl := feed_loop_eq_spec p
    ((update_fitness p c.herbivore).mergeSort herb_desc) c.fodder
  refine ⟨?_, ?_, ?_, List.mergeSort_perm _ _, ?_, ?_, fun hf => ⟨?_, ?_⟩⟩
  · simp only [herbivores_eat, hfl]
  · simp only [herbivores_eat, hfl]
    rw [List.length_zipWith, spec_feed_amounts_length, min_self, hlen]
  · have := List.sorted_mergeSort herb_desc_trans herb_desc_total
      (update_fitness p c.herbivore)
    exact this.imp fun h => by simpa [herb_desc] using h
  · intro l' hsub hpair
    refine List.sublist_mergeSort herb_desc_trans herb_desc_total ?_ hsub
    exact hpair.imp fun h => by simp [herb_desc, h]
  · simp only [herbivores_eat, hfl]
  · simp only [herbivores_eat, hfl]
    have := spec_feed_amounts_le p.F
      ((update_fitness p c.herbivore).mergeSort herb_desc).length c.fodder hf
    linarith
  · exact spec_feed_amounts_le p.F _ c.fodder hf

theorem herbivores_eat_spec_witness :
    (0 : ℝ) ≤ test_cell.fodder ∧ 0 ≤ (herbivores_eat herbParams test_cell).fodder :=
  ⟨by norm_num [test_cell],
   ((herbivores_eat_spec herbParams test_cell).2.2.2.2.2.2
     (by norm_num [test_cell])).1⟩

/-! ## The annual cycle ordering (claim C1) -/

theorem birth_baby (p : AnimalParams) (a : Animal) (N : ℕ) (g : RNG)
    (bb : Animal) (h : (birth p a N g).2.1 = some bb) :
    bb.age = 0 ∧ bb.has_moved = false := by
  rw [birth_eq] at h
  split_ifs at h
  simp only [Option.some_inj] at h
  subst h
  exact ⟨rfl, rfl⟩

theorem create_newborns_go_spec (p : AnimalParams) (N : ℕ)
    (pop : List Animal) : ∀ g : RNG,
    (create_newborns_go p N pop g).1.length = pop.length ∧
    (create_newborns_go p N pop g).2.1.length ≤ pop.length ∧
    ∀ b ∈ (create_newborns_go p N pop g).2.1,
      b.age = 0 ∧ b.has_moved = false := by
  induction pop with
  | nil =>
    intro g
    exact ⟨rfl, le_refl 0, fun b hb => absurd hb (List.not_mem_nil b)⟩
  | cons a rest ih =>
    intro g
    obtain ⟨ih1, ih2, ih3⟩ := ih (birth p a N g).2.2
    rw [create_newborns_go]
    cases hb : (birth p a N g).2.1 with
    | none =>
      simp only [hb]
      exact ⟨by simp [ih1], by simp; omega, ih3⟩
    | some bb =>
      simp only [hb]
      refine ⟨by simp [ih1], by simp; omega, ?_⟩
      intro b hbmem
      rcases List.mem_cons.mp hbmem with h | h
      · subst h
        exact birth_baby p a N g b hb
      · exact ih3 b h

/-- C1: the annual cycle runs, in this fixed order: phase 1 (per cell:
fodder reset, herbivore feeding, carnivore predation, reproduction),
then the herbivore and carnivore migration passes, then phase 2 (aging,
weight loss, death filtering) on the post-migration state, then phase 3
(per-year flag reset).  Reproduction appends the newborns — age 0 and
has-moved unset, hence eligible for the same year's migration — after
the parent pass: the parent list keeps its length (newborns are not
iterated by the reproduction pass that created them, and at most one
newborn arises per parent). -/
theorem advance_year_orders (pH pC : AnimalParams) (island : Island)
    (g : RNG) :
    (advance_year pH pC island g =
      ((yearly_cycle_phase_3
          (yearly_cycle_phase_2 pH pC
            (migration_carnivores pC
              (migration_herbivores pH
                (yearly_cycle_phase_1 pH pC island g).1
                (yearly_cycle_phase_1 pH pC island g).2).1
              (migration_herbivores pH
                (yearly_cycle_phase_1 pH pC island g).1
                (yearly_cycle_phase_1 pH pC island g).2).2).1
            (migration_carnivores pC
              (migration_herbivores pH
                (yearly_cycle_phase_1 pH pC island g).1
                (yearly_cycle_phase_1 pH pC island g).2).1
              (migration_herbivores pH
                (yearly_cycle_phase_1 pH pC island g).1
                (yearly_cycle_phase_1 pH pC island g).2).2).2).1),
       (yearly_cycle_phase_2 pH pC
            (migration_carnivores pC
              (migration_herbivores pH
                (yearly_cycle_phase_1 pH pC island g).1
                (yearly_cycle_phase_1 pH pC island g).2).1
              (migration_herbivores pH
                (yearly_cycle_phase_1 pH pC island g).1
                (yearly_cycle_phase_1 pH pC island g).2).2).1
            (migration_carnivores pC
              (migration_herbivores pH
                (yearly_cycle_phase_1 pH pC island g).1
                (yearly_cycle_phase_1 pH pC island g).2).1
              (migration_herbivores pH
                (yearly_cycle_phase_1 pH pC island g).1
                (yearly_cycle_phase_1 pH pC island g).2).2).2).2)) ∧
    (∀ (c : Cell) (gc : RNG), phase_1_cell pH pC c gc =
      add_newborns pH pC
        (carnivores_eat pH pC (herbivores_eat pH (update_fodder_year c)) gc).1
        (carnivores_eat pH pC (herbivores_eat pH (update_fodder_year c)) gc).2) ∧
    (∀ (c : Cell) (gc : RNG), phase_2_cell pH pC c gc =
      check_for_random_death pH pC
        (updating_weight_loss_for_entire_population pH pC
          (updating_age_for_entire_population pH pC c)) gc) ∧
    (∀ (c : Cell) (gc : RNG), ∃ parentsH babiesH parentsC babiesC,
      (add_newborns pH pC c gc).1.herbivore = parentsH ++ babiesH ∧
      (add_newborns pH pC c gc).1.carnivore = parentsC ++ babiesC ∧
      parentsH.length = c.herbivore.length ∧
      parentsC.length = c.carnivore.length ∧
      babiesH.length ≤ c.herbivore.length ∧
      babiesC.length ≤ c.carnivore.length ∧
      (∀ b ∈ babiesH, b.age = 0 ∧ b.has_moved = false) ∧
      (∀ b ∈ babiesC, b.age = 0 ∧ b.has_moved = false)) := by
  refine ⟨rfl, fun c gc => rfl, fun c gc => rfl, fun c gc => ?_⟩
  obtain ⟨hh1, hh2, hh3⟩ := create_newborns_go_spec pH
    (update_fitness pH c.herbivore).length (update_fitness pH c.herbivore) gc
  obtain ⟨hc1, hc2, hc3⟩ := create_newborns_go_spec pC
    (update_fitness pC c.carnivore).length (update_fitness pC c.carnivore)
    (create_newborns pH (update_fitness pH c.herbivore) gc).2.2
  have hlh : (update_fitness pH c.herbivore).length = c.herbivore.length := by
    simp [update_fitness]
  have hlc : (update_fitness pC c.carnivore).length = c.carnivore.length := by
    simp [update_fitness]
  exact ⟨(create_newborns pH (update_fitness pH c.herbivore) gc).1,
    (create_newborns pH (update_fitness pH c.herbivore) gc).2.1,
    (create_newborns pC (update_fitness pC c.carnivore)
      (create_newborns pH (update_fitness pH c.herbivore) gc).2.2).1,
    (create_newborns pC (update_fitness pC c.carnivore)
      (create_newborns pH (update_fitness pH c.herbivore) gc).2.2).2.1,
    rfl, rfl, hh1.trans hlh, hc1.trans hlc, hlh ▸ hh2, hlc ▸ hc2, hh3, hc3⟩

theorem advance_year_orders_witness :
    phase_1_cell herbParams carnParams test_cell rng_zero_unif =
      add_newborns herbParams carnParams
        (carnivores_eat herbParams carnParams
          (herbivores_eat herbParams (update_fodder_year test_cell))
          rng_zero_unif).1
        (carnivores_eat herbParams carnParams
          (herbivores_eat herbParams (update_fodder_year test_cell))
          rng_zero_unif).2 :=
  (advance_year_orders herbParams carnParams test_island rng_zero_unif).2.1
    test_cell rng_zero_unif

/-! ## Migration invariants (claim C2) -/

@[simp]
theorem setCells_same (cells : (ℤ × ℤ) → Cell) (coord : ℤ × ℤ) (c : Cell) :
    setCells cells coord c coord = c := by
  simp [setCells]

theorem setCells_other (cells : (ℤ × ℤ) → Cell) (coord : ℤ × ℤ) (c : Cell)
    (x : ℤ × ℤ) (h : x ≠ coord) : setCells cells coord c x = cells x := by
  simp [setCells, h]

theorem want_to_migrate_fst (p : AnimalParams) (a : Animal) (g : RNG) :
    (want_to_migrate p a g).1 = fitness_update p a := by
  rw [want_to_migrate_eq]
  split_ifs <;> rfl

theorem get_target_adjacent (coord : ℤ × ℤ) (g : RNG) :
    adjacent coord (get_target_destination coord g).1 := by
  unfold get_target_destination adjacent
  exact List.get_mem _ _ _

theorem animals_to_migrate_spec (p : AnimalParams) (pop : List Animal) :
    ∀ g : RNG,
    ((animals_to_migrate p pop g).1.length +
      (animals_to_migrate p pop g).2.1.length = pop.length) ∧
    (∀ a ∈ (animals_to_migrate p pop g).1, a.has_moved = true ∧
      ∃ a0 ∈ pop, a0.oid = a.oid ∧ a0.has_moved = false) ∧
    (∀ a ∈ (animals_to_migrate p pop g).2.1, ∃ a0 ∈ pop, a0.oid = a.oid ∧
      a.has_moved = a0.has_moved) := by
  induction pop with
  | nil =>
    intro g
    exact ⟨rfl, fun a ha => absurd ha (List.not_mem_nil a),
      fun a ha => absurd ha (List.not_mem_nil a)⟩
  | cons x rest ih =>
    intro g
    obtain ⟨ih1, ih2, ih3⟩ := ih (want_to_migrate p x g).2.2
    have hfst : (want_to_migrate p x g).1 = fitness_update p x :=
      want_to_migrate_fst p x g
    simp only [animals_to_migrate]
    by_cases hcond : (want_to_migrate p x g).2.1 = some true ∧
        (want_to_migrate p x g).1.has_moved = false
    · rw [if_pos hcond]
      refine ⟨?_, ?_, ?_⟩
      · simp only [List.length_cons]
        omega
      · intro a ha
        rcases List.mem_cons.mp ha with h | h
        · subst h
          refine ⟨rfl, x, List.mem_cons_self x rest, ?_, ?_⟩
          · simp [hfst]
          · have := hcond.2
            rw [hfst, fitness_update_has_moved] at this
            exact this
        · obtain ⟨ha1, a0, hmem, hrest⟩ := ih2 a h
          exact ⟨ha1, a0, List.mem_cons_of_mem x hmem, hrest⟩
      · intro a ha
        obtain ⟨a0, hmem, hrest⟩ := ih3 a ha
        exact ⟨a0, List.mem_cons_of_mem x hmem, hrest⟩
    · rw [if_neg hcond]
      refine ⟨?_, ?_, ?_⟩
      · simp only [List.length_cons]
        omega
      · intro a ha
        obtain ⟨ha1, a0, hmem, hrest⟩ := ih2 a ha
        exact ⟨ha1, a0, List.mem_cons_of_mem x hmem, hrest⟩
      · intro a ha
        rcases List.mem_cons.mp ha with h | h
        · subst h
          refine ⟨x, List.mem_cons_self x rest, ?_, ?_⟩
          · simp [hfst]
          · simp [hfst]
        · obtain ⟨a0, hmem, hrest⟩ := ih3 a h
          exact ⟨a0, List.mem_cons_of_mem x hmem, hrest⟩

theorem cnt_congr (get : Cell → List Animal) (coords : List (ℤ × ℤ))
    (cells1 cells2 : (ℤ × ℤ) → Cell)
    (h : ∀ c ∈ coords, get (cells1 c) = get (cells2 c)) :
    cnt get coords cells1 = cnt get coords cells2 := by
  unfold cnt
  exact congrArg List.sum (List.map_congr_left fun c hc => by rw [h c hc])

theorem cnt_setCells (get : Cell → List Animal) (coords : List (ℤ × ℤ))
    (hnd : coords.Nodup) (cells : (ℤ × ℤ) → Cell) (t : ℤ × ℤ)
    (ht : t ∈ coords) (c' : Cell) :
    cnt get coords (setCells cells t c') + (get (cells t)).length =
      cnt get coords cells + (get c').length := by
  induction coords with
  | nil => cases ht
  | cons x rest ih =>
    obtain ⟨hx, hnd'⟩ := List.nodup_cons.mp hnd
    unfold cnt
    simp only [List.map_cons, List.sum_cons]
    by_cases hxt : x = t
    · subst hxt
      rw [setCells_same]
      have hrest : (rest.map fun cc =>
          (get (setCells cells x c' cc)).length).sum =
          (rest.map fun cc => (get (cells cc)).length).sum := by
        apply congrArg List.sum
        apply List.map_congr_left
        intro y hy
        rw [setCells_other cells x c' y (fun h => hx (h ▸ hy))]
      rw [hrest]
      omega
    · have hxt2 : x ≠ t := hxt
      rw [setCells_other cells t c' x hxt2]
      have ht2 : t ∈ rest := by
        rcases List.mem_cons.mp ht with h | h
        · exact absurd h.symm hxt
        · exact h
      have := ih hnd' ht2
      unfold cnt at this
      omega

theorem MigInv_init (get : Cell → List Animal) (cells0 : (ℤ × ℤ) → Cell)
    (hemp : ∀ c, (cells0 c).habitable = false → get (cells0 c) = []) :
    MigInv get cells0 cells0 := by
  refine ⟨fun c => rfl, fun c hne => ?_, fun c a ha =>
    ⟨c, a, ha, rfl, fun _ => rfl, Or.inl rfl⟩⟩
  cases hb : (cells0 c).habitable with
  | false => exact absurd (hemp c hb) hne
  | true => rfl

theorem append_cell_inv (get : Cell → List Animal)
    (upd : Cell → List Animal → Cell) (oth : Cell → List Animal)
    (hgs : ∀ c l, get (upd c l) = l)
    (hhab : ∀ c l, (upd c l).habitable = c.habitable)
    (hoth : ∀ c l, oth (upd c l) = oth c)
    (cells0 : (ℤ × ℤ) → Cell) (coords : List (ℤ × ℤ)) (hnd : coords.Nodup)
    (cells : (ℤ × ℤ) → Cell) (t : ℤ × ℤ) (animal : Animal)
    (hInv : MigInv get cells0 cells) (ht : t ∈ coords)
    (hthab : (cells0 t).habitable = true)
    (htr : MigTrace get cells0 t animal) :
    MigInv get cells0
      (setCells cells t (upd (cells t) (get (cells t) ++ [animal]))) ∧
    cnt get coords
      (setCells cells t (upd (cells t) (get (cells t) ++ [animal]))) =
      cnt get coords cells + 1 ∧
    ∀ c, oth (setCells cells t (upd (cells t) (get (cells t) ++ [animal])) c) =
      oth (cells c) := by
  obtain ⟨hI1, hI2, hI3⟩ := hInv
  refine ⟨⟨?_, ?_, ?_⟩, ?_, ?_⟩
  · intro c
    by_cases hc : c = t
    · subst hc
      rw [setCells_same, hhab]
      exact hI1 c
    · rw [setCells_other _ _ _ _ hc]
      exact hI1 c
  · intro c hne
    by_cases hc : c = t
    · subst hc
      exact hthab
    · rw [setCells_other _ _ _ _ hc] at hne
      exact hI2 c hne
  · intro c a hmem
    by_cases hc : c = t
    · subst hc
      rw [setCells_same, hgs] at hmem
      rcases List.mem_append.mp hmem with h | h
      · exact hI3 c a h
      · rw [List.mem_singleton] at h
        subst h
        exact htr
    · rw [setCells_other _ _ _ _ hc] at hmem
      exact hI3 c a hmem
  · have hcs := cnt_setCells get coords hnd cells t ht
      (upd (cells t) (get (cells t) ++ [animal]))
    rw [hgs] at hcs
    simp only [List.length_append, List.length_cons, List.length_nil] at hcs
    omega
  · intro c
    by_cases hc : c = t
    · subst hc
      rw [setCells_same, hoth]
    · rw [setCells_other _ _ _ _ hc]

theorem mig_place_inv (get : Cell → List Animal)
    (upd : Cell → List Animal → Cell) (oth : Cell → List Animal)
    (hgs : ∀ c l, get (upd c l) = l)
    (hhab : ∀ c l, (upd c l).habitable = c.habitable)
    (hoth : ∀ c l, oth (upd c l) = oth c)
    (cells0 : (ℤ × ℤ) → Cell) (coords : List (ℤ × ℤ)) (hnd : coords.Nodup)
    (hoff : ∀ c, c ∉ coords → (cells0 c).habitable = false)
    (coord : ℤ × ℤ) (hcoord : coord ∈ coords)
    (hcoordhab : (cells0 coord).habitable = true)
    (acc : ((ℤ × ℤ) → Cell) × RNG) (animal : Animal)
    (hInv : MigInv get cells0 acc.1)
    (ha : animal.has_moved = true ∧
      ∃ a0 ∈ get (cells0 coord), a0.oid = animal.oid) :
    MigInv get cells0 (mig_place get upd coord acc animal).1 ∧
    cnt get coords (mig_place get upd coord acc animal).1 =
      cnt get coords acc.1 + 1 ∧
    ∀ c, oth ((mig_place get upd coord acc animal).1 c) = oth (acc.1 c) := by
  obtain ⟨hmv, a0, ha0mem, ha0oid⟩ := ha
  have hadj : adjacent coord (get_target_destination coord acc.2).1 :=
    get_target_adjacent coord acc.2
  by_cases hh : (acc.1 ((get_target_destination coord acc.2).1)).habitable = true
  · have hhab0 : (cells0 ((get_target_destination coord acc.2).1)).habitable
        = true := by
      rw [← hInv.1 ((get_target_destination coord acc.2).1)]
      exact hh
    have htmem : (get_target_destination coord acc.2).1 ∈ coords := by
      by_contra hmem
      rw [hoff _ hmem] at hhab0
      exact Bool.false_ne_true hhab0
    have heq : mig_place get upd coord acc animal =
        (setCells acc.1 ((get_target_destination coord acc.2).1)
          (upd (acc.1 ((get_target_destination coord acc.2).1))
            (get (acc.1 ((get_target_destination coord acc.2).1)) ++ [animal])),
         (get_target_destination coord acc.2).2) := by
      simp only [mig_place]
      rw [if_pos hh]
    have key := append_cell_inv get upd oth hgs hhab hoth cells0 coords hnd
      acc.1 ((get_target_destination coord acc.2).1) animal hInv htmem hhab0
      ⟨coord, a0, ha0mem, ha0oid,
       fun hmvf => absurd hmvf (by simp [hmv]), Or.inr ⟨hadj, hhab0⟩⟩
    rw [heq]
    exact ⟨key.1, key.2.1, key.2.2⟩
  · have heq : mig_place get upd coord acc animal =
        (setCells acc.1 coord
          (upd (acc.1 coord) (get (acc.1 coord) ++ [animal])),
         (get_target_destination coord acc.2).2) := by
      simp only [mig_place]
      rw [if_neg hh]
    have key := append_cell_inv get upd oth hgs hhab hoth cells0 coords hnd
      acc.1 coord animal hInv hcoord hcoordhab
      ⟨coord, a0, ha0mem, ha0oid, fun _ => rfl, Or.inl rfl⟩
    rw [heq]
    exact ⟨key.1, key.2.1, key.2.2⟩

theorem mig_fold_place_inv (get : Cell → List Animal)
    (upd : Cell → List Animal → Cell) (oth : Cell → List Animal)
    (hgs : ∀ c l, get (upd c l) = l)
    (hhab : ∀ c l, (upd c l).habitable = c.habitable)
    (hoth : ∀ c l, oth (upd c l) = oth c)
    (cells0 : (ℤ × ℤ) → Cell) (coords : List (ℤ × ℤ)) (hnd : coords.Nodup)
    (hoff : ∀ c, c ∉ coords → (cells0 c).habitable = false)
    (coord : ℤ × ℤ) (hcoord : coord ∈ coords)
    (hcoordhab : (cells0 coord).habitable = true) (mig : List Animal) :
    ∀ acc : ((ℤ × ℤ) → Cell) × RNG, MigInv get cells0 acc.1 →
    (∀ a ∈ mig, a.has_moved = true ∧
      ∃ a0 ∈ get (cells0 coord), a0.oid = a.oid) →
    MigInv get cells0 ((mig.foldl (mig_place get upd coord) acc)).1 ∧
    cnt get coords ((mig.foldl (mig_place get upd coord) acc)).1 =
      cnt get coords acc.1 + mig.length ∧
    ∀ c, oth ((mig.foldl (mig_place get upd coord) acc).1 c) =
      oth (acc.1 c) := by
  induction mig with
  | nil =>
    intro acc hInv _
    exact ⟨hInv, by simp, fun c => rfl⟩
  | cons animal rest ih =>
    intro acc hInv hmig
    obtain ⟨k1, k2, k3⟩ := mig_place_inv get upd oth hgs hhab hoth cells0
      coords hnd hoff coord hcoord hcoordhab acc animal hInv
      (hmig animal (List.mem_cons_self animal rest))
    obtain ⟨f1, f2, f3⟩ := ih (mig_place get upd coord acc animal) k1
      (fun a ha => hmig a (List.mem_cons_of_mem animal ha))
    rw [List.foldl_cons]
    refine ⟨f1, ?_, fun c => (f3 c).trans (k3 c)⟩
    rw [f2, k2]
    simp only [List.length_cons]
    omega

theorem mig_step_inv (get : Cell → List Animal)
    (upd : Cell → List Animal → Cell) (oth : Cell → List Animal)
    (hgs : ∀ c l, get (upd c l) = l)
    (hhab : ∀ c l, (upd c l).habitable = c.habitable)
    (hoth : ∀ c l, oth (upd c l) = oth c)
    (cells0 : (ℤ × ℤ) → Cell) (coords : List (ℤ × ℤ)) (hnd : coords.Nodup)
    (hoff : ∀ c, c ∉ coords → (cells0 c).habitable = false)
    (p : AnimalParams) (coord : ℤ × ℤ) (hcoord : coord ∈ coords)
    (acc : ((ℤ × ℤ) → Cell) × RNG) (hInv : MigInv get cells0 acc.1) :
    MigInv get cells0 (mig_step p get upd acc coord).1 ∧
    cnt get coords (mig_step p get upd acc coord).1 =
      cnt get coords acc.1 ∧
    ∀ c, oth ((mig_step p get upd acc coord).1 c) = oth (acc.1 c) := by
  obtain ⟨s1, s2, s3⟩ :=
    animals_to_migrate_spec p (get (acc.1 coord)) acc.2
  have heq : mig_step p get upd acc coord =
      (animals_to_migrate p (get (acc.1 coord)) acc.2).1.foldl
        (mig_place get upd coord)
        (setCells acc.1 coord
          (upd (acc.1 coord)
            (animals_to_migrate p (get (acc.1 coord)) acc.2).2.1),
         (animals_to_migrate p (get (acc.1 coord)) acc.2).2.2) := rfl
  have hInv1 : MigInv get cells0
      (setCells acc.1 coord
        (upd (acc.1 coord)
          (animals_to_migrate p (get (acc.1 coord)) acc.2).2.1)) := by
    obtain ⟨hI1, hI2, hI3⟩ := hInv
    refine ⟨?_, ?_, ?_⟩
    · intro c
      by_cases hc : c = coord
      · subst hc
        rw [setCells_same, hhab]
        exact hI1 c
      · rw [setCells_other _ _ _ _ hc]
        exact hI1 c
    · intro c hne
      by_cases hc : c = coord
      · subst hc
        rw [setCells_same, hgs] at hne
        apply hI2
        intro hpopnil
        apply hne
        rw [hpopnil]
        rfl
      · rw [setCells_other _ _ _ _ hc] at hne
        exact hI2 c hne
    · intro c a hmem
      by_cases hc : c = coord
      · subst hc
        rw [setCells_same, hgs] at hmem
        obtain ⟨a0, ha0mem, ha0oid, ha0mv⟩ := s3 a hmem
        obtain ⟨c0, a00, h1, h2, h3, h4⟩ := hI3 c a0 ha0mem
        exact ⟨c0, a00, h1, h2.trans ha0oid,
          fun hmvf => h3 (by rw [← ha0mv]; exact hmvf), h4⟩
      · rw [setCells_other _ _ _ _ hc] at hmem
        exact hI3 c a hmem
  have hcnt1 : cnt get coords
      (setCells acc.1 coord
        (upd (acc.1 coord)
          (animals_to_migrate p (get (acc.1 coord)) acc.2).2.1)) +
      (get (acc.1 coord)).length =
      cnt get coords acc.1 +
      (animals_to_migrate p (get (acc.1 coord)) acc.2).2.1.length := by
    have := cnt_setCells get coords hnd acc.1 coord hcoord
      (upd (acc.1 coord)
        (animals_to_migrate p (get (acc.1 coord)) acc.2).2.1)
    rw [hgs] at this
    exact this
  have hoth1 : ∀ c, oth
      (setCells acc.1 coord
        (upd (acc.1 coord)
          (animals_to_migrate p (get (acc.1 coord)) acc.2).2.1) c) =
      oth (acc.1 c) := by
    intro c
    by_cases hc : c = coord
    · subst hc
      rw [setCells_same, hoth]
    · rw [setCells_other _ _ _ _ hc]
  have hred : cnt get coords
      (((setCells acc.1 coord
          (upd (acc.1 coord)
            (animals_to_migrate p (get (acc.1 coord)) acc.2).2.1),
        (animals_to_migrate p (get (acc.1 coord)) acc.2).2.2) :
        ((ℤ × ℤ) → Cell) × RNG)).1 =
      cnt get coords
        (setCells acc.1 coord
          (upd (acc.1 coord)
            (animals_to_migrate p (get (acc.1 coord)) acc.2).2.1)) := rfl
  by_cases hmig : (animals_to_migrate p (get (acc.1 coord)) acc.2).1 = []
  · rw [heq, hmig, List.foldl_nil]
    refine ⟨hInv1, ?_, hoth1⟩
    have hlen0 : (animals_to_migrate p (get (acc.1 coord)) acc.2).1.length
        = 0 := by rw [hmig]; rfl
    rw [hred]
    omega
  · have hpopne : get (acc.1 coord) ≠ [] := by
      intro hnil
      obtain ⟨a, hamem⟩ := List.exists_mem_of_ne_nil _ hmig
      obtain ⟨-, aP, hPmem, -⟩ := s2 a hamem
      rw [hnil] at hPmem
      exact List.not_mem_nil aP hPmem
    have hch : (cells0 coord).habitable = true := hInv.2.1 coord hpopne
    have hmigfacts : ∀ a ∈ (animals_to_migrate p (get (acc.1 coord)) acc.2).1,
        a.has_moved = true ∧
        ∃ a0 ∈ get (cells0 coord), a0.oid = a.oid := by
      intro a ha
      obtain ⟨hamv, aP, hPmem, hPoid, hPmvf⟩ := s2 a ha
      obtain ⟨c0, a00, h1, h2, h3, h4⟩ := hInv.2.2 coord aP hPmem
      have hc0 : coord = c0 := h3 hPmvf
      refine ⟨hamv, a00, ?_, h2.trans hPoid⟩
      rw [hc0]
      exact h1
    obtain ⟨f1, f2, f3⟩ := mig_fold_place_inv get upd oth hgs hhab hoth
      cells0 coords hnd hoff coord hcoord hch
      (animals_to_migrate p (get (acc.1 coord)) acc.2).1
      (setCells acc.1 coord
        (upd (acc.1 coord)
          (animals_to_migrate p (get (acc.1 coord)) acc.2).2.1),
       (animals_to_migrate p (get (acc.1 coord)) acc.2).2.2)
      hInv1 hmigfacts
    rw [heq]
    refine ⟨f1, ?_, fun c => (f3 c).trans (hoth1 c)⟩
    rw [f2, hred]
    omega

theorem mig_fold_steps_inv (get : Cell → List Animal)
    (upd : Cell → List Animal → Cell) (oth : Cell → List Animal)
    (hgs : ∀ c l, get (upd c l) = l)
    (hhab : ∀ c l, (upd c l).habitable = c.habitable)
    (hoth : ∀ c l, oth (upd c l) = oth c)
    (cells0 : (ℤ × ℤ) → Cell) (coords : List (ℤ × ℤ)) (hnd : coords.Nodup)
    (hoff : ∀ c, c ∉ coords → (cells0 c).habitable = false)
    (p : AnimalParams) (todo : List (ℤ × ℤ)) :
    ∀ acc : ((ℤ × ℤ) → Cell) × RNG, (∀ c ∈ todo, c ∈ coords) →
    MigInv get cells0 acc.1 →
    MigInv get cells0 ((todo.foldl (mig_step p get upd) acc)).1 ∧
    cnt get coords ((todo.foldl (mig_step p get upd) acc)).1 =
      cnt get coords acc.1 ∧
    ∀ c, oth ((todo.foldl (mig_step p get upd) acc).1 c) = oth (acc.1 c) := by
  induction todo with
  | nil =>
    intro acc _ hInv
    exact ⟨hInv, rfl, fun c => rfl⟩
  | cons coord rest ih =>
    intro acc hsub hInv
    obtain ⟨k1, k2, k3⟩ := mig_step_inv get upd oth hgs hhab hoth cells0
      coords hnd hoff p coord (hsub coord (List.mem_cons_self coord rest))
      acc hInv
    obtain ⟨f1, f2, f3⟩ := ih (mig_step p get upd acc coord)
      (fun c hc => hsub c (List.mem_cons_of_mem coord hc)) k1
    rw [List.foldl_cons]
    exact ⟨f1, f2.trans k2, fun c => (f3 c).trans (k3 c)⟩

theorem migration_pass_inv (get : Cell → List Animal)
    (upd : Cell → List Animal → Cell) (oth : Cell → List Animal)
    (hgs : ∀ c l, get (upd c l) = l)
    (hhab : ∀ c l, (upd c l).habitable = c.habitable)
    (hoth : ∀ c l, oth (upd c l) = oth c)
    (p : AnimalParams) (island : Island) (g : RNG)
    (hnd : island.coords.Nodup)
    (hoff : ∀ c, c ∉ island.coords → (island.cells c).habitable = false)
    (hemp : ∀ c, (island.cells c).habitable = false →
      get (island.cells c) = []) :
    (migration_pass p get upd island g).1.coords = island.coords ∧
    cnt get island.coords (migration_pass p get upd island g).1.cells =
      cnt get island.coords island.cells ∧
    (∀ c, oth ((migration_pass p get upd island g).1.cells c) =
      oth (island.cells c)) ∧
    (∀ c a, a ∈ get ((migration_pass p get upd island g).1.cells c) →
      (island.cells c).habitable = true ∧
      ∃ c0 a0, a0 ∈ get (island.cells c0) ∧ a0.oid = a.oid ∧
        (c = c0 ∨ adjacent c0 c)) := by
  have h0 := MigInv_init get island.cells hemp
  obtain ⟨f1, f2, f3⟩ := mig_fold_steps_inv get upd oth hgs hhab hoth
    island.cells island.coords hnd hoff p island.coords
    (island.cells, g) (fun c hc => hc) h0
  have hcells : (migration_pass p get upd island g).1.cells =
      (island.coords.foldl (mig_step p get upd) (island.cells, g)).1 := rfl
  refine ⟨rfl, by rw [hcells]; exact f2, fun c => by rw [hcells]; exact f3 c,
    ?_⟩
  intro c a ha
  rw [hcells] at ha
  obtain ⟨hI1, hI2, hI3⟩ := f1
  have hhabc : (island.cells c).habitable = true := by
    apply hI2
    intro hnil
    rw [hnil] at ha
    exact List.not_mem_nil a ha
  obtain ⟨c0, a0, m1, m2, -, m4⟩ := hI3 c a ha
  exact ⟨hhabc, c0, a0, m1, m2, m4.imp_right And.left⟩

/-- C2: on a pre-validated grid (no duplicate keys, everything off the
key set impassable, animals only in passable cells), one migration pass
— herbivore or carnivore — leaves the island-wide count of each species
unchanged, and every individual ends the pass in a passable cell that
is its pre-pass cell or one of the four orthogonal neighbours of it
(located by its object identity `oid`; in particular nobody is moved
more than one step in one pass). -/
theorem migration_conservation (pH pC : AnimalParams) (island : Island)
    (g : RNG) (hnd : island.coords.Nodup)
    (hoff : ∀ c, c ∉ island.coords → (island.cells c).habitable = false)
    (hemp : ∀ c, (island.cells c).habitable = false →
      (island.cells c).herbivore = [] ∧ (island.cells c).carnivore = []) :
    (herb_count (migration_herbivores pH island g).1 = herb_count island ∧
     carn_count (migration_herbivores pH island g).1 = carn_count island ∧
     (∀ c a, a ∈ ((migration_herbivores pH island g).1.cells c).herbivore →
       (island.cells c).habitable = true ∧
       ∃ c0 a0, a0 ∈ (island.cells c0).herbivore ∧ a0.oid = a.oid ∧
         (c = c0 ∨ adjacent c0 c))) ∧
    (carn_count (migration_carnivores pC island g).1 = carn_count island ∧
     herb_count (migration_carnivores pC island g).1 = herb_count island ∧
     (∀ c a, a ∈ ((migration_carnivores pC island g).1.cells c).carnivore →
       (island.cells c).habitable = true ∧
       ∃ c0 a0, a0 ∈ (island.cells c0).carnivore ∧ a0.oid = a.oid ∧
         (c = c0 ∨ adjacent c0 c))) := by
  obtain ⟨e1, e2, e3, e4⟩ := migration_pass_inv (fun c => c.herbivore)
    (fun c l => { c with herbivore := l }) (fun c => c.carnivore)
    (fun c l => rfl) (fun c l => rfl) (fun c l => rfl)
    pH island g hnd hoff (fun c h => (hemp c h).1)
  obtain ⟨d1, d2, d3, d4⟩ := migration_pass_inv (fun c => c.carnivore)
    (fun c l => { c with carnivore := l }) (fun c => c.herbivore)
    (fun c l => rfl) (fun c l => rfl) (fun c l => rfl)
    pC island g hnd hoff (fun c h => (hemp c h).2)
  refine ⟨⟨e2, ?_, e4⟩, ⟨d2, ?_, d4⟩⟩
  · exact cnt_congr (fun c => c.carnivore) island.coords
      (migration_herbivores pH island g).1.cells island.cells
      (fun c _ => e3 c)
  · exact cnt_congr (fun c => c.herbivore) island.coords
      (migration_carnivores pC island g).1.cells island.cells
      (fun c _ => d3 c)

theorem migration_conservation_witness :
    herb_count (migration_herbivores herbParams witness_island
      rng_zero_unif).1 = herb_count witness_island := by
  have hnd : witness_island.coords.Nodup := by
    simp only [witness_island]
    decide
  have hoff : ∀ c, c ∉ witness_island.coords →
      (witness_island.cells c).habitable = false := by
    intro c hc
    by_cases h : c = (((1 : ℤ), (1 : ℤ)) : ℤ × ℤ)
    · exfalso
      apply hc
      rw [h]
      simp only [witness_island]
      decide
    · simp only [witness_island]
      rw [if_neg h]
      rfl
  have hemp : ∀ c, (witness_island.cells c).habitable = false →
      (witness_island.cells c).herbivore = [] ∧
      (witness_island.cells c).carnivore = [] := by
    intro c h
    by_cases hc : c = (((1 : ℤ), (1 : ℤ)) : ℤ × ℤ)
    · rw [hc] at h
      simp [witness_island] at h
    · simp only [witness_island]
      rw [if_neg hc]
      exact ⟨rfl, rfl⟩
  exact ((migration_conservation herbParams carnParams witness_island
    rng_zero_unif hnd hoff hemp).1).1

end Biosim
